import Mathlib

/-!
Verification development for the Satori adapter's decoding/validation layer
(`nonebot/adapters/satori/models.py`).  The wire data model, the field
coercions and the per-entity validators are embedded as executable Lean
functions; the theorems at the end of the file check the documented
properties of that layer.
-/

namespace Satori

/-- Modelled from the spec: `Element`, the structured content node produced by
the external markup parser (`utils.Element`, whose module is not part of the
embedded source).  Its internal structure is irrelevant to this layer, which
only moves whole elements around, so it is carried as a wrapped markup
string. -/
structure Element where
  markup : String
deriving DecidableEq, Repr

/-- A loosely-typed wire value: what a parsed JSON object/field can hold,
plus the two runtime values that re-enter validation in the host language
(an already-normalized point in time, and a pre-structured content
element).  A point in time is carried as rational seconds since the epoch,
which keeps the millisecond-to-second division of the source exact. -/
inductive PVal where
  | null
  | bool (b : Bool)
  | int (n : Int)
  | str (s : String)
  | dt (t : Rat)
  | elem (e : Element)
  | list (xs : List PVal)
  | obj (fields : List (String × PVal))
deriving Repr

/-- A raw mapping from string keys to loosely-typed values. -/
abbrev RawObj := List (String × PVal)

/-- The protocol opcodes (`Opcode` in the source). -/
inductive Opcode where
  | EVENT
  | PING
  | PONG
  | IDENTIFY
  | READY
deriving DecidableEq, Repr

/-- Integer value of each opcode, as declared in the source enum. -/
def Opcode.ofInt (n : Int) : Option Opcode :=
  if n = 0 then some .EVENT
  else if n = 1 then some .PING
  else if n = 2 then some .PONG
  else if n = 3 then some .IDENTIFY
  else if n = 4 then some .READY
  else none

/-- Validation failures of the decoding layer, following the spec's error
taxonomy; each constructor carries the offending field name or raw value. -/
inductive Err where
  | missingField (name : String)
  | noneNotAllowed (name : String)
  | notStr (v : PVal)
  | notInt (v : PVal)
  | notBool (v : PVal)
  | notDict (v : PVal)
  | notList (v : PVal)
  | notElement (v : PVal)
  | invalidEnumValue (field : String) (v : PVal)
  | invalidTimestamp (v : PVal)
  | invalidContentType (v : PVal)
  | missingBody (op : Opcode)
  | unknownOpcode (v : PVal)
deriving Repr

/-- `true` exactly on the null wire value. -/
def PVal.isNull : PVal → Bool
  | .null => true
  | _ => false

/-- Key lookup in a raw mapping (first binding wins, as in a host dict). -/
def getKey (m : RawObj) (k : String) : Option PVal := m.lookup k

/-- Digits of a decimal numeral read into a number; any non-digit character
fails. -/
def decDigits (cs : List Char) : Option Nat :=
  cs.foldl
    (fun acc c =>
      match acc with
      | none => none
      | some n => if c.isDigit then some (n * 10 + (c.toNat - 48)) else none)
    (some 0)

/-- Python's `int(str)` conversion: surrounding whitespace is ignored, an
optional sign precedes a nonempty run of decimal digits. -/
def strToInt (s : String) : Option Int :=
  match (s.data.dropWhile Char.isWhitespace).reverse.dropWhile Char.isWhitespace
      |>.reverse with
  | [] => none
  | '-' :: cs => if cs = [] then none else (decDigits cs).map fun n => -(n : Int)
  | '+' :: cs => if cs = [] then none else (decDigits cs).map fun n => (n : Int)
  | cs => (decDigits cs).map fun n => (n : Int)

/-- Python's `int(v)` conversion as invoked by the validators: identity on
integers, `True`/`False` to `1`/`0`, decimal strings parsed; every other
value fails the conversion (a `ValueError`/`TypeError` in the host). -/
def intConv : PVal → Option Int
  | .bool b => some (if b then 1 else 0)
  | .int n => some n
  | .str s => strToInt s
  | _ => none

/-- The shared timestamp normalizer (the body of `parse_timestamp`,
`parse_joined_at`, `parse_created_at`, `parse_updated_at`, which are
textually identical in the source): null passes through, an existing point
in time passes through, anything else is converted to an integer and read
as milliseconds since the epoch (seconds = value / 1000, exactly). -/
def parse_timestamp (v : PVal) : Except Err (Option Rat) :=
  match v with
  | .null => .ok none
  | .dt t => .ok (some t)
  | v =>
    match intConv v with
    | some n => .ok (some ((n : Rat) / 1000))
    | none => .error (.invalidTimestamp v)

/-- String field coercion (pydantic v1 `str`): strings pass through, numbers
and booleans are stringified, anything else is rejected. -/
def coerceStr : PVal → Except Err String
  | .str s => .ok s
  | .int n => .ok (toString n)
  | .bool b => .ok (if b then "True" else "False")
  | v => .error (.notStr v)

/-- Integer field coercion (pydantic v1 `int`): Python `int(v)`. -/
def coerceInt (v : PVal) : Except Err Int :=
  match intConv v with
  | some n => .ok n
  | none => .error (.notInt v)

/-- Boolean field coercion (pydantic v1 `bool`). -/
def coerceBool : PVal → Except Err Bool
  | .bool b => .ok b
  | .int 0 => .ok false
  | .int 1 => .ok true
  | v => .error (.notBool v)

/-- Integer-enum field coercion: the raw value must be an integer (or a
boolean, which the host treats as its integer value) in the enum's known
set, otherwise the field fails with `InvalidEnumValue`. -/
def coerceEnum {α : Type} (field : String) (ofInt : Int → Option α) (v : PVal) :
    Except Err α :=
  match v with
  | .int n =>
    match ofInt n with
    | some a => .ok a
    | none => .error (.invalidEnumValue field v)
  | .bool b =>
    match ofInt (if b then 1 else 0) with
    | some a => .ok a
    | none => .error (.invalidEnumValue field v)
  | _ => .error (.invalidEnumValue field v)

/-- An optional (nullable, defaulting) field: absent or null yields `none`,
otherwise the inner coercion runs. -/
def optField {α : Type} (f : PVal → Except Err α) : Option PVal → Except Err (Option α)
  | none => .ok none
  | some v => if v.isNull then .ok none else (f v).map some

/-- A required field: absent fails with `missingField`, an explicit null
fails with `noneNotAllowed`, otherwise the inner coercion runs. -/
def reqField {α : Type} (name : String) (f : PVal → Except Err α) :
    Option PVal → Except Err α
  | none => .error (.missingField name)
  | some v => if v.isNull then .error (.noneNotAllowed name) else f v

/-- A required timestamp field with the pre-validator attached: the
normalizer runs first, and a null result is then rejected by the required
field check. -/
def reqTimestamp (name : String) : Option PVal → Except Err Rat
  | none => .error (.missingField name)
  | some v =>
    match parse_timestamp v with
    | .error e => .error e
    | .ok none => .error (.noneNotAllowed name)
    | .ok (some t) => .ok t

/-- An optional timestamp field with the pre-validator attached. -/
def optTimestamp : Option PVal → Except Err (Option Rat)
  | none => .ok none
  | some v => parse_timestamp v

/-- The open-schema policy: the bindings of a raw map whose keys are not
among the entity's declared fields, kept verbatim. -/
def extrasOf (declared : List String) (m : RawObj) : RawObj :=
  m.filter fun kv => !(declared.contains kv.1)

/-- A raw map with every binding of the given key removed ("the same map
with the key removed" of the absent-versus-null comparison). -/
def removeKey (k : String) (m : RawObj) : RawObj :=
  m.filter fun kv => !(kv.1 == k)

/-- The channel kinds (`ChannelType` in the source). -/
inductive ChannelType where
  | TEXT
  | VOICE
  | CATEGORY
  | DIRECT
deriving DecidableEq, Repr

/-- Integer value of each channel kind, as declared in the source enum. -/
def ChannelType.ofInt (n : Int) : Option ChannelType :=
  if n = 0 then some .TEXT
  else if n = 1 then some .VOICE
  else if n = 2 then some .CATEGORY
  else if n = 3 then some .DIRECT
  else none

/-- The login statuses (`LoginStatus` in the source). -/
inductive LoginStatus where
  | OFFLINE
  | ONLINE
  | CONNECT
  | DISCONNECT
  | RECONNECT
deriving DecidableEq, Repr

/-- Integer value of each login status, as declared in the source enum. -/
def LoginStatus.ofInt (n : Int) : Option LoginStatus :=
  if n = 0 then some .OFFLINE
  else if n = 1 then some .ONLINE
  else if n = 2 then some .CONNECT
  else if n = 3 then some .DISCONNECT
  else if n = 4 then some .RECONNECT
  else none

/-- The `Channel` entity; `extra` holds the open-schema leftovers. -/
structure Channel where
  id : String
  name : Option String := none
  type : ChannelType
  parent_id : Option String := none
  extra : RawObj := []

/-- Declared field names of `Channel`. -/
def Channel.declared : List String := ["id", "name", "type", "parent_id"]

/-- Validation of the declared fields of `Channel`. -/
def channelCore (m : RawObj) : Except Err Channel := do
  let id ← reqField "id" coerceStr (getKey m "id")
  let name ← optField coerceStr (getKey m "name")
  let ty ← reqField "type" (coerceEnum "type" ChannelType.ofInt) (getKey m "type")
  let parent_id ← optField coerceStr (getKey m "parent_id")
  return { id, name, type := ty, parent_id }

/-- The `Channel` validator: declared fields are coerced, unrecognized keys
are retained (the source's `extra=Extra.allow`). -/
def validateChannel (m : RawObj) : Except Err Channel :=
  (channelCore m).map fun c => { c with extra := extrasOf Channel.declared m }

/-- `Channel` validation of an arbitrary wire value (non-mappings fail). -/
def validateChannelV : PVal → Except Err Channel
  | .obj m => validateChannel m
  | v => .error (.notDict v)

/-- The `Guild` entity. -/
structure Guild where
  id : String
  name : String
  avatar : Option String := none
  extra : RawObj := []

/-- Declared field names of `Guild`. -/
def Guild.declared : List String := ["id", "name", "avatar"]

/-- Validation of the declared fields of `Guild`. -/
def guildCore (m : RawObj) : Except Err Guild := do
  let id ← reqField "id" coerceStr (getKey m "id")
  let name ← reqField "name" coerceStr (getKey m "name")
  let avatar ← optField coerceStr (getKey m "avatar")
  return { id, name, avatar }

/-- The `Guild` validator (open schema). -/
def validateGuild (m : RawObj) : Except Err Guild :=
  (guildCore m).map fun c => { c with extra := extrasOf Guild.declared m }

/-- `Guild` validation of an arbitrary wire value. -/
def validateGuildV : PVal → Except Err Guild
  | .obj m => validateGuild m
  | v => .error (.notDict v)

/-- The `User` entity. -/
structure User where
  id : String
  name : Option String := none
  avatar : Option String := none
  is_bot : Option Bool := none
  extra : RawObj := []

/-- Declared field names of `User`. -/
def User.declared : List String := ["id", "name", "avatar", "is_bot"]

/-- Validation of the declared fields of `User`. -/
def userCore (m : RawObj) : Except Err User := do
  let id ← reqField "id" coerceStr (getKey m "id")
  let name ← optField coerceStr (getKey m "name")
  let avatar ← optField coerceStr (getKey m "avatar")
  let is_bot ← optField coerceBool (getKey m "is_bot")
  return { id, name, avatar, is_bot }

/-- The `User` validator (open schema). -/
def validateUser (m : RawObj) : Except Err User :=
  (userCore m).map fun c => { c with extra := extrasOf User.declared m }

/-- `User` validation of an arbitrary wire value. -/
def validateUserV : PVal → Except Err User
  | .obj m => validateUser m
  | v => .error (.notDict v)

/-- The `Role` entity. -/
structure Role where
  id : String
  name : String
  extra : RawObj := []

/-- Declared field names of `Role`. -/
def Role.declared : List String := ["id", "name"]

/-- Validation of the declared fields of `Role`. -/
def roleCore (m : RawObj) : Except Err Role := do
  let id ← reqField "id" coerceStr (getKey m "id")
  let name ← reqField "name" coerceStr (getKey m "name")
  return { id, name }

/-- The `Role` validator (open schema). -/
def validateRole (m : RawObj) : Except Err Role :=
  (roleCore m).map fun c => { c with extra := extrasOf Role.declared m }

/-- `Role` validation of an arbitrary wire value. -/
def validateRoleV : PVal → Except Err Role
  | .obj m => validateRole m
  | v => .error (.notDict v)

/-- The `Login` entity. -/
structure Login where
  user : Option User := none
  self_id : Option String := none
  platform : Option String := none
  status : LoginStatus
  extra : RawObj := []

/-- Declared field names of `Login`. -/
def Login.declared : List String := ["user", "self_id", "platform", "status"]

/-- Validation of the declared fields of `Login`. -/
def loginCore (m : RawObj) : Except Err Login := do
  let user ← optField validateUserV (getKey m "user")
  let self_id ← optField coerceStr (getKey m "self_id")
  let platform ← optField coerceStr (getKey m "platform")
  let status ← reqField "status" (coerceEnum "status" LoginStatus.ofInt) (getKey m "status")
  return { user, self_id, platform, status }

/-- The `Login` validator (open schema). -/
def validateLogin (m : RawObj) : Except Err Login :=
  (loginCore m).map fun c => { c with extra := extrasOf Login.declared m }

/-- `Login` validation of an arbitrary wire value. -/
def validateLoginV : PVal → Except Err Login
  | .obj m => validateLogin m
  | v => .error (.notDict v)

/-- The permissive member tier (`InnerMember` in the source): every field is
optional. -/
structure InnerMember where
  user : Option User := none
  name : Option String := none
  avatar : Option String := none
  joined_at : Option Rat := none
  extra : RawObj := []

/-- Declared field names of both member tiers (the strict tier redeclares
the same names). -/
def memberDeclared : List String := ["user", "name", "avatar", "joined_at"]

/-- Validation of the declared fields of `InnerMember`; `joined_at` runs
through the shared timestamp normalizer (`parse_joined_at`). -/
def innerMemberCore (m : RawObj) : Except Err InnerMember := do
  let user ← optField validateUserV (getKey m "user")
  let name ← optField coerceStr (getKey m "name")
  let avatar ← optField coerceStr (getKey m "avatar")
  let joined_at ← optTimestamp (getKey m "joined_at")
  return { user, name, avatar, joined_at }

/-- The `InnerMember` validator (open schema). -/
def validateInnerMember (m : RawObj) : Except Err InnerMember :=
  (innerMemberCore m).map fun c => { c with extra := extrasOf memberDeclared m }

/-- `InnerMember` validation of an arbitrary wire value. -/
def validateInnerMemberV : PVal → Except Err InnerMember
  | .obj m => validateInnerMember m
  | v => .error (.notDict v)

/-- The strict member tier (`OuterMember` in the source): `user` and
`joined_at` become required; the inherited timestamp pre-validator still
applies. -/
structure OuterMember where
  user : User
  name : Option String := none
  avatar : Option String := none
  joined_at : Rat
  extra : RawObj := []

/-- Validation of the declared fields of `OuterMember`. -/
def outerMemberCore (m : RawObj) : Except Err OuterMember := do
  let user ← reqField "user" validateUserV (getKey m "user")
  let name ← optField coerceStr (getKey m "name")
  let avatar ← optField coerceStr (getKey m "avatar")
  let joined_at ← reqTimestamp "joined_at" (getKey m "joined_at")
  return { user, name, avatar, joined_at }

/-- The `OuterMember` validator (open schema, inherited). -/
def validateOuterMember (m : RawObj) : Except Err OuterMember :=
  (outerMemberCore m).map fun c => { c with extra := extrasOf memberDeclared m }

/-- The content normalizer (`InnerMessage.parse_content`): a list passes
through unchanged, null passes through, a string is handed to the external
markup parser, anything else fails.  The parser is the external
collaborator, passed in as a function. -/
def parse_content (parse : String → List Element) (v : PVal) : Except Err PVal :=
  match v with
  | .list xs => .ok (.list xs)
  | .null => .ok .null
  | .str s => .ok (.list ((parse s).map PVal.elem))
  | v => .error (.invalidContentType v)

/-- Modelled from the spec: ingestion of one pre-structured content node
(the external `Element` type's own validation, which lives in the absent
`utils` module); a structured element passes through, anything else is
rejected. -/
def coerceElement : PVal → Except Err Element
  | .elem e => .ok e
  | v => .error (.notElement v)

/-- Element-wise ingestion of a raw list into a content sequence. -/
def coerceElements : List PVal → Except Err (List Element)
  | [] => .ok []
  | v :: vs => do
    let e ← coerceElement v
    let es ← coerceElements vs
    return e :: es

/-- The `content` field pipeline: the content normalizer runs first
(pre-validator), then the required `List[Element]` field check. -/
def contentField (parse : String → List Element) : Option PVal → Except Err (List Element)
  | none => .error (.missingField "content")
  | some v =>
    match parse_content parse v with
    | .error e => .error e
    | .ok .null => .error (.noneNotAllowed "content")
    | .ok (.list xs) => coerceElements xs
    | .ok w => .error (.notList w)

/-- The diagnostic emitted by `InnerMessage.ensure_content`. -/
def contentWarning : String :=
  "received message without content, this may be caused by a bug of Satori Server."

/-- The `ensure_content` root pre-validator: if the raw map has no
`content` key at all, a warning is logged and the sentinel string
`"Unknown"` is substituted; otherwise the map passes through untouched. -/
def ensure_content (m : RawObj) : RawObj × List String :=
  if (getKey m "content").isSome then (m, [])
  else (m ++ [("content", .str "Unknown")], [contentWarning])

/-- The permissive message tier (`InnerMessage` in the source). -/
structure InnerMessage where
  id : String
  content : List Element
  channel : Option Channel := none
  guild : Option Guild := none
  member : Option InnerMember := none
  user : Option User := none
  created_at : Option Rat := none
  updated_at : Option Rat := none
  extra : RawObj := []

/-- Declared field names of `InnerMessage`. -/
def InnerMessage.declared : List String :=
  ["id", "content", "channel", "guild", "member", "user", "created_at", "updated_at"]

/-- Validation of the declared fields of `InnerMessage` (after the root
pre-validator has run); `created_at`/`updated_at` run through the shared
timestamp normalizer. -/
def messageCore (parse : String → List Element) (m : RawObj) : Except Err InnerMessage := do
  let id ← reqField "id" coerceStr (getKey m "id")
  let content ← contentField parse (getKey m "content")
  let channel ← optField validateChannelV (getKey m "channel")
  let guild ← optField validateGuildV (getKey m "guild")
  let member ← optField validateInnerMemberV (getKey m "member")
  let user ← optField validateUserV (getKey m "user")
  let created_at ← optTimestamp (getKey m "created_at")
  let updated_at ← optTimestamp (getKey m "updated_at")
  return { id, content, channel, guild, member, user, created_at, updated_at }

/-- The `InnerMessage` validator: the `ensure_content` root pre-validator
runs first (possibly logging), then the declared fields are coerced and the
unrecognized keys retained.  The second component is the list of emitted
diagnostics. -/
def validateInnerMessage (parse : String → List Element) (m0 : RawObj) :
    Except Err InnerMessage × List String :=
  let (m, logs) := ensure_content m0
  ((messageCore parse m).map fun c => { c with extra := extrasOf InnerMessage.declared m },
   logs)

/-- `InnerMessage` validation of an arbitrary wire value. -/
def validateInnerMessageV (parse : String → List Element) :
    PVal → Except Err InnerMessage × List String
  | .obj m => validateInnerMessage parse m
  | v => (.error (.notDict v), [])

/-- The optional `message` field of an event, threading the diagnostics of
the inner message validation. -/
def optMessageField (parse : String → List Element) :
    Option PVal → Except Err (Option InnerMessage) × List String
  | none => (.ok none, [])
  | some v =>
    if v.isNull then (.ok none, [])
    else
      let (r, logs) := validateInnerMessageV parse v
      (r.map some, logs)

/-- The `Event` entity. -/
structure Event where
  id : Int
  type : String
  platform : String
  self_id : String
  timestamp : Rat
  channel : Option Channel := none
  guild : Option Guild := none
  login : Option Login := none
  member : Option InnerMember := none
  message : Option InnerMessage := none
  operator : Option User := none
  role : Option Role := none
  user : Option User := none
  extra : RawObj := []

/-- Declared field names of `Event`. -/
def Event.declared : List String :=
  ["id", "type", "platform", "self_id", "timestamp", "channel", "guild", "login",
   "member", "message", "operator", "role", "user"]

/-- Validation of the declared fields of `Event`; the already-resolved
`message` field result is passed in so that its diagnostics can be threaded
by the caller. -/
def eventCore (msgR : Except Err (Option InnerMessage)) (m : RawObj) :
    Except Err Event := do
  let id ← reqField "id" coerceInt (getKey m "id")
  let ty ← reqField "type" coerceStr (getKey m "type")
  let platform ← reqField "platform" coerceStr (getKey m "platform")
  let self_id ← reqField "self_id" coerceStr (getKey m "self_id")
  let timestamp ← reqTimestamp "timestamp" (getKey m "timestamp")
  let channel ← optField validateChannelV (getKey m "channel")
  let guild ← optField validateGuildV (getKey m "guild")
  let login ← optField validateLoginV (getKey m "login")
  let member ← optField validateInnerMemberV (getKey m "member")
  let message ← msgR
  let operator ← optField validateUserV (getKey m "operator")
  let role ← optField validateRoleV (getKey m "role")
  let user ← optField validateUserV (getKey m "user")
  return { id, type := ty, platform, self_id, timestamp, channel, guild, login,
           member, message, operator, role, user }

/-- The `Event` validator (open schema); the second component is the list
of emitted diagnostics. -/
def validateEvent (parse : String → List Element) (m : RawObj) :
    Except Err Event × List String :=
  let (msgR, logs) := optMessageField parse (getKey m "message")
  ((eventCore msgR m).map fun c => { c with extra := extrasOf Event.declared m }, logs)

/-- `Event` validation of an arbitrary wire value. -/
def validateEventV (parse : String → List Element) : PVal → Except Err Event × List String
  | .obj m => validateEvent parse m
  | v => (.error (.notDict v), [])

/-- The `Identify` body (closed schema). -/
structure Identify where
  token : Option String := none
  sequence : Option Int := none

/-- The `Identify` validator. -/
def validateIdentify (m : RawObj) : Except Err Identify := do
  let token ← optField coerceStr (getKey m "token")
  let sequence ← optField coerceInt (getKey m "sequence")
  return { token, sequence }

/-- The `Ready` body (closed schema). -/
structure Ready where
  logins : List Login

/-- Element-wise validation of a raw list of logins. -/
def coerceLogins : List PVal → Except Err (List Login)
  | [] => .ok []
  | v :: vs => do
    let l ← validateLoginV v
    let ls ← coerceLogins vs
    return l :: ls

/-- The `Ready` validator: `logins` is a required list of `Login`. -/
def validateReady (m : RawObj) : Except Err Ready := do
  let logins ← reqField "logins"
    (fun v =>
      match v with
      | .list xs => coerceLogins xs
      | w => .error (.notList w))
    (getKey m "logins")
  return { logins }

/-- The decoded payload variants, one per opcode (the concrete subclasses
`EventPayload`, `PingPayload`, `PongPayload`, `IdentifyPayload`,
`ReadyPayload` of the source). -/
inductive DecodedPayload where
  | event (body : Event)
  | ping
  | pong
  | identify (body : Identify)
  | ready (body : Ready)

/-- The raw `op` value resolved to a known opcode, when it is a known
integer. -/
def decodeOp : PVal → Option Opcode
  | .int n => Opcode.ofInt n
  | _ => none

/-- The envelope body read as a mapping, treating an absent or null body as
the empty map (the envelope's `body` is optional with default null). -/
def bodyObj (raw : RawObj) : Option RawObj :=
  match getKey raw "body" with
  | none => some []
  | some .null => some []
  | some (.obj m) => some m
  | some _ => none

/-- Modelled from the spec: the opcode-discriminated payload decoder
(spec section 4.6).  The repository code that dispatches an envelope to a
concrete payload variant is not part of the embedded source file (only the
model declarations are), so the dispatch follows the spec: `EVENT` requires
a body and validates it as an `Event`; `PING`/`PONG` ignore the body
entirely; `IDENTIFY` validates the body (or an empty map) as `Identify`;
`READY` requires `body.logins`; an unrecognized `op` fails with
`UnknownOpcode` carrying the raw value.  Body validation is delegated to
the validators embedded above from the source. -/
def decodePayload (parse : String → List Element) (raw : RawObj) :
    Except Err DecodedPayload × List String :=
  match getKey raw "op" with
  | none => (.error (.missingField "op"), [])
  | some opv =>
    match decodeOp opv with
    | none => (.error (.unknownOpcode opv), [])
    | some .EVENT =>
      match getKey raw "body" with
      | none => (.error (.missingBody .EVENT), [])
      | some .null => (.error (.missingBody .EVENT), [])
      | some b =>
        let (r, logs) := validateEventV parse b
        (r.map .event, logs)
    | some .PING => (.ok .ping, [])
    | some .PONG => (.ok .pong, [])
    | some .IDENTIFY =>
      (match bodyObj raw with
       | some m => (validateIdentify m).map .identify
       | none => .error (.notDict ((getKey raw "body").getD .null)), [])
    | some .READY =>
      (match bodyObj raw with
       | some m => (validateReady m).map .ready
       | none => .error (.notDict ((getKey raw "body").getD .null)), [])

/-- Modelled from the spec: re-extraction of epoch milliseconds from a
normalized point in time (section 8's round-trip property); with a point in
time carried as rational seconds, the milliseconds are the floor of the
seconds scaled by 1000. -/
def millisOfTimestamp (r : Rat) : Int := ⌊r * 1000⌋

/-- A concrete stand-in for the external markup parser, used to instantiate
the parser-parametric theorems on concrete inputs. -/
def sampleParse (s : String) : List Element := [⟨s⟩]

/-- A sample raw event body with the five required fields. -/
def sampleEventObj : RawObj :=
  [("id", .int 1), ("type", .str "message-created"), ("platform", .str "satori"),
   ("self_id", .str "42"), ("timestamp", .int 1000)]

/-- The decoded form of `sampleEventObj`. -/
def sampleEvent : Event :=
  { id := 1, type := "message-created", platform := "satori", self_id := "42",
    timestamp := ((1000 : Int) : Rat) / 1000 }

/-- A sample decoded channel without extras. -/
def sampleChannel : Channel := { id := "c", type := .TEXT }

/-- A sample raw member map with full membership data. -/
def sampleMemberObj : RawObj :=
  [("user", .obj [("id", .str "u1")]), ("joined_at", .int 2000)]

/-- The decoded strict-tier form of `sampleMemberObj`. -/
def sampleOuterMember : OuterMember :=
  { user := { id := "u1" }, joined_at := ((2000 : Int) : Rat) / 1000 }

/-- The permissive-tier view of a strict-tier member: same shared fields,
with the two mandatory ones wrapped optional. -/
def innerOfOuter (om : OuterMember) : InnerMember :=
  { user := some om.user, name := om.name, avatar := om.avatar,
    joined_at := some om.joined_at, extra := om.extra }

theorem bind_ok {ε α β : Type} {x : Except ε α} {f : α → Except ε β} {b : β}
    (h : (x >>= f) = .ok b) : ∃ a, x = .ok a ∧ f a = .ok b := by
  cases x with
  | error e => simp [Bind.bind, Except.bind] at h
  | ok a => exact ⟨a, rfl, by simpa [Bind.bind, Except.bind] using h⟩

theorem map_ok {ε α β : Type} {x : Except ε α} {f : α → β} {b : β}
    (h : x.map f = .ok b) : ∃ a, x = .ok a ∧ f a = b := by
  cases x with
  | error e => simp [Except.map] at h
  | ok a => exact ⟨a, rfl, by simpa [Except.map] using h⟩

theorem reqField_ok {α : Type} {name : String} {f : PVal → Except Err α}
    {o : Option PVal} {a : α} (h : reqField name f o = .ok a) :
    ∃ v, o = some v ∧ v.isNull = false ∧ f v = .ok a := by
  cases o with
  | none => simp [reqField] at h
  | some v =>
    by_cases hv : v.isNull = true
    · simp [reqField, hv] at h
    · exact ⟨v, rfl, by simpa using hv, by simpa [reqField, hv] using h⟩

theorem optField_of_notNull {α : Type} {f : PVal → Except Err α} {v : PVal}
    (hv : v.isNull = false) : optField f (some v) = (f v).map some := by
  simp [optField, hv]

theorem reqTimestamp_ok {name : String} {o : Option PVal} {t : Rat}
    (h : reqTimestamp name o = .ok t) :
    ∃ v, o = some v ∧ parse_timestamp v = .ok (some t) := by
  cases o with
  | none => simp [reqTimestamp] at h
  | some v =>
    refine ⟨v, rfl, ?_⟩
    cases hp : parse_timestamp v with
    | error e => simp [reqTimestamp, hp] at h
    | ok w =>
      cases w with
      | none => simp [reqTimestamp, hp] at h
      | some t1 => simp_all [reqTimestamp, hp]

theorem coerceElements_elems (xs : List Element) :
    coerceElements (xs.map PVal.elem) = .ok xs := by
  induction xs with
  | nil => rfl
  | cons x xs ih =>
    simp [coerceElements, coerceElement, ih, Bind.bind, Except.bind, pure, Except.pure]

theorem getKey_append_left {m l : RawObj} {k : String}
    (h : getKey m k = none) : getKey (m ++ l) k = getKey l k := by
  induction m with
  | nil => rfl
  | cons kv m ih =>
    obtain ⟨a, b⟩ := kv
    simp only [getKey, List.cons_append, List.lookup] at h ⊢
    cases hk : k == a with
    | true => simp [hk] at h
    | false =>
      simp only [hk] at h ⊢
      exact ih h

theorem mem_extrasOf {declared : List String} {m : RawObj} {k : String} {v : PVal}
    (hm : (k, v) ∈ m) (hk : k ∉ declared) : (k, v) ∈ extrasOf declared m := by
  refine List.mem_filter.mpr ⟨hm, ?_⟩
  simp [hk]

theorem validateChannel_extra {m : RawObj} {c : Channel}
    (h : validateChannel m = .ok c) : c.extra = extrasOf Channel.declared m := by
  rw [validateChannel] at h
  obtain ⟨a, -, h2⟩ := map_ok h
  rw [← h2]

theorem validateGuild_extra {m : RawObj} {c : Guild}
    (h : validateGuild m = .ok c) : c.extra = extrasOf Guild.declared m := by
  rw [validateGuild] at h
  obtain ⟨a, -, h2⟩ := map_ok h
  rw [← h2]

theorem validateUser_extra {m : RawObj} {c : User}
    (h : validateUser m = .ok c) : c.extra = extrasOf User.declared m := by
  rw [validateUser] at h
  obtain ⟨a, -, h2⟩ := map_ok h
  rw [← h2]

theorem validateRole_extra {m : RawObj} {c : Role}
    (h : validateRole m = .ok c) : c.extra = extrasOf Role.declared m := by
  rw [validateRole] at h
  obtain ⟨a, -, h2⟩ := map_ok h
  rw [← h2]

theorem validateLogin_extra {m : RawObj} {c : Login}
    (h : validateLogin m = .ok c) : c.extra = extrasOf Login.declared m := by
  rw [validateLogin] at h
  obtain ⟨a, -, h2⟩ := map_ok h
  rw [← h2]

theorem validateInnerMember_extra {m : RawObj} {c : InnerMember}
    (h : validateInnerMember m = .ok c) : c.extra = extrasOf memberDeclared m := by
  rw [validateInnerMember] at h
  obtain ⟨a, -, h2⟩ := map_ok h
  rw [← h2]

/-- C3: the shared timestamp normalizer (used for `Member.joined_at`,
`Message.created_at`, `Message.updated_at` and `Event.timestamp`) maps null
to null, passes an already-normalized point in time through unchanged
(re-normalizing is the identity), fails with `InvalidTimestamp` on a value
that is not integer-convertible, and maps a value converting to the integer
`t` to the point in time `t / 1000` seconds since the epoch, fractional
part preserved. -/
theorem C3_timestamp_normalizer :
    parse_timestamp .null = .ok none ∧
    (∀ t : Rat, parse_timestamp (.dt t) = .ok (some t)) ∧
    (∀ v : PVal, v ≠ .null → (∀ t, v ≠ .dt t) → intConv v = none →
      parse_timestamp v = .error (.invalidTimestamp v)) ∧
    (∀ (v : PVal) (n : Int), v ≠ .null → (∀ t, v ≠ .dt t) → intConv v = some n →
      parse_timestamp v = .ok (some ((n : Rat) / 1000))) := by
  refine ⟨rfl, fun t => rfl, ?_, ?_⟩
  · intro v h1 h2 h3
    cases v <;> first
      | exact absurd rfl h1
      | exact absurd rfl (h2 _)
      | simp [parse_timestamp, h3]
  · intro v n h1 h2 h3
    cases v <;> first
      | exact absurd rfl h1
      | exact absurd rfl (h2 _)
      | simp [parse_timestamp, h3]

/-- Witness for C3 at concrete inputs: a non-numeric string fails with
`InvalidTimestamp`, and the integer 1500 normalizes to 1500/1000 seconds. -/
theorem C3_timestamp_normalizer_witness :
    parse_timestamp (.str "abc") = .error (.invalidTimestamp (.str "abc")) ∧
    parse_timestamp (.int 1500) = .ok (some (((1500 : Int) : Rat) / 1000)) :=
  ⟨C3_timestamp_normalizer.2.2.1 (.str "abc") (by simp) (fun t => by simp) (by decide),
   C3_timestamp_normalizer.2.2.2 (.int 1500) 1500 (by simp) (fun t => by simp) rfl⟩

/-- C9: normalizing a valid epoch-millisecond integer with the timestamp
normalizer and re-extracting milliseconds from the resulting point in time
yields the integer back exactly. -/
theorem C9_millis_roundtrip (t : Int) :
    parse_timestamp (.int t) = .ok (some ((t : Rat) / 1000)) ∧
    millisOfTimestamp ((t : Rat) / 1000) = t := by
  constructor
  · rfl
  · unfold millisOfTimestamp
    have h : (t : Rat) / 1000 * 1000 = (t : Rat) := div_mul_cancel₀ _ (by norm_num)
    rw [h]
    exact Int.floor_intCast t

/-- C6: the content normalizer passes a list through unchanged, maps null
to null, hands a string to the external markup parser, and fails with
`InvalidContentType` on every other input. -/
theorem C6_content_normalizer (parse : String → List Element) :
    (∀ xs : List PVal, parse_content parse (.list xs) = .ok (.list xs)) ∧
    parse_content parse .null = .ok .null ∧
    (∀ s : String, parse_content parse (.str s) = .ok (.list ((parse s).map PVal.elem))) ∧
    (∀ v : PVal, (∀ xs, v ≠ .list xs) → v ≠ .null → (∀ s, v ≠ .str s) →
      parse_content parse v = .error (.invalidContentType v)) := by
  refine ⟨fun xs => rfl, rfl, fun s => rfl, ?_⟩
  intro v h1 h2 h3
  cases v <;> first
    | exact absurd rfl h2
    | exact absurd rfl (h1 _)
    | exact absurd rfl (h3 _)
    | rfl

/-- Witness for C6 at concrete inputs: an integer content value is
rejected with `InvalidContentType`. -/
theorem C6_content_normalizer_witness :
    parse_content sampleParse (.int 7) = .error (.invalidContentType (.int 7)) :=
  (C6_content_normalizer sampleParse).2.2.2 (.int 7)
    (fun xs => by simp) (by simp) (fun s => by simp)

/-- C4: decoding an envelope whose `op` is an integer outside the known set
{0, 1, 2, 3, 4} fails with `UnknownOpcode` carrying that raw value. -/
theorem C4_unknown_opcode (parse : String → List Element) (raw : RawObj) (n : Int)
    (hop : getKey raw "op" = some (.int n)) (hn : n ∉ ([0, 1, 2, 3, 4] : List Int)) :
    decodePayload parse raw = (.error (.unknownOpcode (.int n)), []) := by
  simp only [List.mem_cons, List.not_mem_nil, or_false, not_or] at hn
  obtain ⟨h0, h1, h2, h3, h4⟩ := hn
  simp [decodePayload, hop, decodeOp, Opcode.ofInt, h0, h1, h2, h3, h4]

/-- Witness for C4: `op = 255` fails with `UnknownOpcode(255)`. -/
theorem C4_unknown_opcode_witness :
    decodePayload sampleParse [("op", .int 255)] =
      (.error (.unknownOpcode (.int 255)), []) :=
  C4_unknown_opcode sampleParse [("op", .int 255)] 255 rfl (by decide)

/-- C5: an envelope with `op = PING` (1) or `op = PONG` (2) decodes to
`PingPayload`/`PongPayload` whatever the rest of the envelope holds: the
body (present, absent, or arbitrary junk) has no effect on the result. -/
theorem C5_ping_pong_ignore_body (parse : String → List Element) (raw : RawObj) :
    (getKey raw "op" = some (.int 1) → decodePayload parse raw = (.ok .ping, [])) ∧
    (getKey raw "op" = some (.int 2) → decodePayload parse raw = (.ok .pong, [])) := by
  constructor <;> intro hop <;> simp [decodePayload, hop, decodeOp, Opcode.ofInt]

/-- Witness for C5: ping with a junk string body, pong with a junk list
body. -/
theorem C5_ping_pong_ignore_body_witness :
    decodePayload sampleParse [("op", .int 1), ("body", .str "junk")] = (.ok .ping, []) ∧
    decodePayload sampleParse [("op", .int 2), ("body", .list [.int 3, .null])] =
      (.ok .pong, []) :=
  ⟨(C5_ping_pong_ignore_body sampleParse _).1 rfl,
   (C5_ping_pong_ignore_body sampleParse _).2 rfl⟩

theorem getKey_removeKey (k : String) (m : RawObj) :
    getKey (removeKey k m) k = none := by
  induction m with
  | nil => rfl
  | cons kv m ih =>
    obtain ⟨a, b⟩ := kv
    by_cases ha : a = k
    · simpa [removeKey, ha] using ih
    · have h1 : (a == k) = false := beq_eq_false_iff_ne.mpr ha
      have h2 : (k == a) = false := beq_eq_false_iff_ne.mpr (Ne.symm ha)
      simp only [removeKey, List.filter_cons, h1, Bool.not_false, if_true] at ih ⊢
      unfold getKey List.lookup
      rw [h2]
      exact ih

theorem validateInnerMessage_absent_logs {parse : String → List Element} {m : RawObj}
    (h : getKey m "content" = none) :
    (validateInnerMessage parse m).2 = [contentWarning] := by
  simp [validateInnerMessage, ensure_content, h]

theorem validateInnerMessage_absent_as_sentinel {parse : String → List Element}
    {m : RawObj} (h : getKey m "content" = none) :
    (validateInnerMessage parse m).1 =
      (validateInnerMessage parse (m ++ [("content", .str "Unknown")])).1 := by
  have hck : getKey (m ++ [("content", PVal.str "Unknown")]) "content" =
      some (.str "Unknown") := by
    rw [getKey_append_left h]; rfl
  simp [validateInnerMessage, ensure_content, h, hck]

theorem validateInnerMessage_absent_success {parse : String → List Element}
    {m : RawObj} {msg : InnerMessage} (h : getKey m "content" = none)
    (hok : (validateInnerMessage parse m).1 = .ok msg) :
    msg.content = parse "Unknown" := by
  have hck : getKey (m ++ [("content", PVal.str "Unknown")]) "content" =
      some (.str "Unknown") := by
    rw [getKey_append_left h]; rfl
  have hm : validateInnerMessage parse m =
      ((messageCore parse (m ++ [("content", PVal.str "Unknown")])).map
        fun c => { c with
          extra := extrasOf InnerMessage.declared
            (m ++ [("content", PVal.str "Unknown")]) },
       [contentWarning]) := by
    simp [validateInnerMessage, ensure_content, h]
  rw [hm] at hok
  obtain ⟨c, hcore, hmsg⟩ := map_ok hok
  rw [messageCore] at hcore
  obtain ⟨i, -, hcore⟩ := bind_ok hcore
  obtain ⟨ct, hct, hcore⟩ := bind_ok hcore
  obtain ⟨ch, -, hcore⟩ := bind_ok hcore
  obtain ⟨g, -, hcore⟩ := bind_ok hcore
  obtain ⟨mem, -, hcore⟩ := bind_ok hcore
  obtain ⟨u, -, hcore⟩ := bind_ok hcore
  obtain ⟨ca, -, hcore⟩ := bind_ok hcore
  obtain ⟨ua, -, hcore⟩ := bind_ok hcore
  simp only [pure, Except.pure, Except.ok.injEq] at hcore
  rw [hck] at hct
  have hct2 : (Except.ok (parse "Unknown") : Except Err (List Element)) = .ok ct := by
    rw [← hct]
    simp [contentField, parse_content, coerceElements_elems]
  have hctv : ct = parse "Unknown" := by
    injection hct2 with h2
    exact h2.symm
  rw [← hmsg, ← hcore, ← hctv]

/-- C10 counterexample: the claim's removal clause fails at the concrete
map holding only a null `content`: the same map with the key removed is
the empty map, which does not decode successfully — `id` is required. -/
theorem C10_null_vs_absent_content_counterexample :
    getKey [("content", PVal.null)] "content" = some PVal.null ∧
    removeKey "content" [("content", PVal.null)] = [] ∧
    (validateInnerMessage sampleParse
      (removeKey "content" [("content", PVal.null)])).1 =
      .error (.missingField "id") :=
  ⟨rfl, rfl, rfl⟩

/-- C10 (amended): an explicit null `content` and an absent `content` key
are not equivalent.  With the key present and null, message decoding can
never succeed (the content normalizer yields null and the required field
rejects it) and no warning/sentinel fires; the same map with the key
removed takes the sentinel path — exactly one warning, decoding behaving
exactly as if the sentinel `"Unknown"` had been supplied, and succeeding,
whenever the remaining declared fields validate, with content equal to the
parse of the sentinel; the sentinel path applies exactly when the key is
entirely absent. -/
theorem C10_null_vs_absent_content_amended (parse : String → List Element) (m : RawObj) :
    (getKey m "content" = some .null →
      (∀ msg : InnerMessage, (validateInnerMessage parse m).1 ≠ .ok msg) ∧
      parse_content parse .null = .ok .null ∧
      contentField parse (some .null) = .error (.noneNotAllowed "content") ∧
      (validateInnerMessage parse m).2 = []) ∧
    (getKey (removeKey "content" m) "content" = none ∧
      (validateInnerMessage parse (removeKey "content" m)).2 = [contentWarning] ∧
      (validateInnerMessage parse (removeKey "content" m)).1 =
        (validateInnerMessage parse
          (removeKey "content" m ++ [("content", .str "Unknown")])).1 ∧
      (∀ msg : InnerMessage,
        (validateInnerMessage parse (removeKey "content" m)).1 = .ok msg →
        msg.content = parse "Unknown")) ∧
    ((validateInnerMessage parse m).2 ≠ [] ↔ getKey m "content" = none) := by
  have h0 : getKey (removeKey "content" m) "content" = none := getKey_removeKey _ _
  refine ⟨?_, ⟨h0, validateInnerMessage_absent_logs h0,
    validateInnerMessage_absent_as_sentinel h0,
    fun msg hok => validateInnerMessage_absent_success h0 hok⟩, ?_⟩
  · intro hc
    refine ⟨?_, rfl, rfl, by simp [validateInnerMessage, ensure_content, hc]⟩
    intro msg hok
    have hm : validateInnerMessage parse m =
        ((messageCore parse m).map
          fun c => { c with extra := extrasOf InnerMessage.declared m }, []) := by
      simp [validateInnerMessage, ensure_content, hc]
    rw [hm] at hok
    obtain ⟨c, hcore, -⟩ := map_ok hok
    rw [messageCore] at hcore
    obtain ⟨i, -, hcore⟩ := bind_ok hcore
    obtain ⟨ct, hct, -⟩ := bind_ok hcore
    rw [hc] at hct
    simp [contentField, parse_content] at hct
  · cases hg : getKey m "content" with
    | none => simp [validateInnerMessage, ensure_content, hg, contentWarning]
    | some v => simp [validateInnerMessage, ensure_content, hg]

/-- Witness for C10 (amended): a map with `id` valid and `content`
explicitly null does not decode, while removing the key takes the
warning/sentinel path. -/
theorem C10_null_vs_absent_content_amended_witness :
    (validateInnerMessage sampleParse [("id", .str "m"), ("content", .null)]).1 ≠
      .ok { id := "m", content := [] } ∧
    (validateInnerMessage sampleParse
      (removeKey "content" [("id", .str "m"), ("content", .null)])).2 =
      [contentWarning] :=
  ⟨((C10_null_vs_absent_content_amended sampleParse
      [("id", .str "m"), ("content", .null)]).1 rfl).1 _,
   (C10_null_vs_absent_content_amended sampleParse
      [("id", .str "m"), ("content", .null)]).2.1.2.1⟩

/-- C2 counterexample: decoding does not succeed for arbitrary raw maps
lacking `content` — the empty map lacks `content` yet fails, because `id`
is required and receives no default (only `content` does). -/
theorem C2_missing_content_counterexample :
    getKey ([] : RawObj) "content" = none ∧
    (validateInnerMessage sampleParse []).1 = .error (.missingField "id") ∧
    (validateInnerMessage sampleParse []).2 = [contentWarning] :=
  ⟨rfl, rfl, rfl⟩

/-- C2 (amended): for a raw message map that entirely lacks `content`,
decoding behaves exactly as if the sentinel string `"Unknown"` had been
supplied for `content`, exactly one warning is emitted, and whenever
decoding succeeds the decoded content equals the markup parse of the
sentinel; no other missing field of an entity receives such a default
(a missing message `id` and a missing `Guild.name` fail instead). -/
theorem C2_missing_content_amended (parse : String → List Element) (m : RawObj)
    (h : getKey m "content" = none) :
    (∀ msg : InnerMessage, (validateInnerMessage parse m).1 = .ok msg →
      msg.content = parse "Unknown") ∧
    (validateInnerMessage parse m).2 = [contentWarning] ∧
    (validateInnerMessage parse m).1 =
      (validateInnerMessage parse (m ++ [("content", .str "Unknown")])).1 ∧
    (∀ m2 : RawObj, getKey m2 "id" = none →
      (validateInnerMessage parse m2).1 = .error (.missingField "id")) ∧
    (∀ m3 : RawObj, getKey m3 "name" = none → ∀ g : Guild, validateGuild m3 ≠ .ok g) := by
  refine ⟨fun msg hok => validateInnerMessage_absent_success h hok,
    validateInnerMessage_absent_logs h,
    validateInnerMessage_absent_as_sentinel h, ?_, ?_⟩
  · intro m2 h2
    cases hg : getKey m2 "content" with
    | none =>
      have h2app : getKey (m2 ++ [("content", PVal.str "Unknown")]) "id" = none := by
        rw [getKey_append_left h2]; rfl
      simp [validateInnerMessage, ensure_content, hg, messageCore, h2app, reqField,
        Bind.bind, Except.bind, Except.map]
    | some v =>
      simp [validateInnerMessage, ensure_content, hg, messageCore, h2, reqField,
        Bind.bind, Except.bind, Except.map]
  · intro m3 h3 g hok
    rw [validateGuild] at hok
    obtain ⟨c, hcore, -⟩ := map_ok hok
    rw [guildCore] at hcore
    obtain ⟨i, -, hcore⟩ := bind_ok hcore
    obtain ⟨nm, hnm, -⟩ := bind_ok hcore
    rw [h3] at hnm
    simp [reqField] at hnm

/-- Witness for C2 (amended): a map holding only a valid `id` decodes with
the parsed sentinel as content and exactly one warning. -/
theorem C2_missing_content_amended_witness :
    (validateInnerMessage sampleParse [("id", .str "m1")]).1 =
      .ok { id := "m1", content := [⟨"Unknown"⟩] } ∧
    ({ id := "m1", content := [⟨"Unknown"⟩] } : InnerMessage).content =
      sampleParse "Unknown" ∧
    (validateInnerMessage sampleParse [("id", .str "m1")]).2 = [contentWarning] :=
  ⟨rfl,
   (C2_missing_content_amended sampleParse [("id", .str "m1")] rfl).1 _ rfl,
   (C2_missing_content_amended sampleParse [("id", .str "m1")] rfl).2.1⟩

theorem filter_content_sentinel :
    List.filter (fun kv => !(InnerMessage.declared.contains kv.1))
      [("content", PVal.str "Unknown")] = [] := rfl

theorem validateInnerMessage_extra {parse : String → List Element} {m : RawObj}
    {msg : InnerMessage} (h : (validateInnerMessage parse m).1 = .ok msg) :
    msg.extra = extrasOf InnerMessage.declared m := by
  cases hg : getKey m "content" with
  | some v =>
    have hm : (validateInnerMessage parse m).1 =
        (messageCore parse m).map
          fun c => { c with extra := extrasOf InnerMessage.declared m } := by
      simp [validateInnerMessage, ensure_content, hg]
    rw [hm] at h
    obtain ⟨a, -, h2⟩ := map_ok h
    rw [← h2]
  | none =>
    have hm : (validateInnerMessage parse m).1 =
        (messageCore parse (m ++ [("content", PVal.str "Unknown")])).map
          fun c => { c with
            extra := extrasOf InnerMessage.declared
              (m ++ [("content", PVal.str "Unknown")]) } := by
      simp [validateInnerMessage, ensure_content, hg]
    rw [hm] at h
    obtain ⟨a, -, h2⟩ := map_ok h
    rw [← h2]
    show extrasOf InnerMessage.declared (m ++ [("content", PVal.str "Unknown")]) = _
    unfold extrasOf
    rw [List.filter_append, filter_content_sentinel, List.append_nil]

theorem getKey_append_ne {m : RawObj} {k d : String} {v : PVal} (h : d ≠ k) :
    getKey (m ++ [(k, v)]) d = getKey m d := by
  induction m with
  | nil =>
    simp only [List.nil_append, getKey, List.lookup]
    rw [beq_eq_false_iff_ne.mpr h]
  | cons kv m ih =>
    obtain ⟨a, b⟩ := kv
    simp only [getKey, List.cons_append, List.lookup] at ih ⊢
    cases hk : d == a with
    | true => rfl
    | false => exact ih

theorem extrasOf_append_undeclared {declared : List String} {m : RawObj} {k : String}
    {v : PVal} (hk : k ∉ declared) :
    extrasOf declared (m ++ [(k, v)]) = extrasOf declared m ++ [(k, v)] := by
  unfold extrasOf
  rw [List.filter_append]
  congr 1
  simp [hk]

theorem extrasOf_append_sentinel (m : RawObj) :
    extrasOf InnerMessage.declared (m ++ [("content", PVal.str "Unknown")]) =
      extrasOf InnerMessage.declared m := by
  unfold extrasOf
  rw [List.filter_append, filter_content_sentinel, List.append_nil]

theorem channelCore_congr {m1 m2 : RawObj}
    (h : ∀ d ∈ Channel.declared, getKey m1 d = getKey m2 d) :
    channelCore m1 = channelCore m2 := by
  simp only [channelCore, h "id" (by simp [Channel.declared]),
    h "name" (by simp [Channel.declared]), h "type" (by simp [Channel.declared]),
    h "parent_id" (by simp [Channel.declared])]

theorem guildCore_congr {m1 m2 : RawObj}
    (h : ∀ d ∈ Guild.declared, getKey m1 d = getKey m2 d) :
    guildCore m1 = guildCore m2 := by
  simp only [guildCore, h "id" (by simp [Guild.declared]),
    h "name" (by simp [Guild.declared]), h "avatar" (by simp [Guild.declared])]

theorem userCore_congr {m1 m2 : RawObj}
    (h : ∀ d ∈ User.declared, getKey m1 d = getKey m2 d) :
    userCore m1 = userCore m2 := by
  simp only [userCore, h "id" (by simp [User.declared]),
    h "name" (by simp [User.declared]), h "avatar" (by simp [User.declared]),
    h "is_bot" (by simp [User.declared])]

theorem roleCore_congr {m1 m2 : RawObj}
    (h : ∀ d ∈ Role.declared, getKey m1 d = getKey m2 d) :
    roleCore m1 = roleCore m2 := by
  simp only [roleCore, h "id" (by simp [Role.declared]),
    h "name" (by simp [Role.declared])]

theorem loginCore_congr {m1 m2 : RawObj}
    (h : ∀ d ∈ Login.declared, getKey m1 d = getKey m2 d) :
    loginCore m1 = loginCore m2 := by
  simp only [loginCore, h "user" (by simp [Login.declared]),
    h "self_id" (by simp [Login.declared]), h "platform" (by simp [Login.declared]),
    h "status" (by simp [Login.declared])]

theorem innerMemberCore_congr {m1 m2 : RawObj}
    (h : ∀ d ∈ memberDeclared, getKey m1 d = getKey m2 d) :
    innerMemberCore m1 = innerMemberCore m2 := by
  simp only [innerMemberCore, h "user" (by simp [memberDeclared]),
    h "name" (by simp [memberDeclared]), h "avatar" (by simp [memberDeclared]),
    h "joined_at" (by simp [memberDeclared])]

theorem messageCore_congr {parse : String → List Element} {m1 m2 : RawObj}
    (h : ∀ d ∈ InnerMessage.declared, getKey m1 d = getKey m2 d) :
    messageCore parse m1 = messageCore parse m2 := by
  simp only [messageCore, h "id" (by simp [InnerMessage.declared]),
    h "content" (by simp [InnerMessage.declared]),
    h "channel" (by simp [InnerMessage.declared]),
    h "guild" (by simp [InnerMessage.declared]),
    h "member" (by simp [InnerMessage.declared]),
    h "user" (by simp [InnerMessage.declared]),
    h "created_at" (by simp [InnerMessage.declared]),
    h "updated_at" (by simp [InnerMessage.declared])]

theorem eventCore_congr {msgR : Except Err (Option InnerMessage)} {m1 m2 : RawObj}
    (h : ∀ d ∈ Event.declared, getKey m1 d = getKey m2 d) :
    eventCore msgR m1 = eventCore msgR m2 := by
  simp only [eventCore, h "id" (by simp [Event.declared]),
    h "type" (by simp [Event.declared]), h "platform" (by simp [Event.declared]),
    h "self_id" (by simp [Event.declared]), h "timestamp" (by simp [Event.declared]),
    h "channel" (by simp [Event.declared]), h "guild" (by simp [Event.declared]),
    h "login" (by simp [Event.declared]), h "member" (by simp [Event.declared]),
    h "operator" (by simp [Event.declared]), h "role" (by simp [Event.declared]),
    h "user" (by simp [Event.declared])]

theorem validateChannel_append {m : RawObj} {c : Channel} {k : String} {v : PVal}
    (hk : k ∉ Channel.declared) (h : validateChannel m = .ok c) :
    validateChannel (m ++ [(k, v)]) = .ok { c with extra := c.extra ++ [(k, v)] } := by
  have hee : ∀ d ∈ Channel.declared, getKey (m ++ [(k, v)]) d = getKey m d :=
    fun d hd => getKey_append_ne fun hdk => hk (hdk ▸ hd)
  rw [validateChannel] at h
  obtain ⟨a, ha, h2⟩ := map_ok h
  rw [validateChannel, channelCore_congr hee, ha, extrasOf_append_undeclared hk]
  subst h2
  rfl

theorem validateGuild_append {m : RawObj} {c : Guild} {k : String} {v : PVal}
    (hk : k ∉ Guild.declared) (h : validateGuild m = .ok c) :
    validateGuild (m ++ [(k, v)]) = .ok { c with extra := c.extra ++ [(k, v)] } := by
  have hee : ∀ d ∈ Guild.declared, getKey (m ++ [(k, v)]) d = getKey m d :=
    fun d hd => getKey_append_ne fun hdk => hk (hdk ▸ hd)
  rw [validateGuild] at h
  obtain ⟨a, ha, h2⟩ := map_ok h
  rw [validateGuild, guildCore_congr hee, ha, extrasOf_append_undeclared hk]
  subst h2
  rfl

theorem validateUser_append {m : RawObj} {c : User} {k : String} {v : PVal}
    (hk : k ∉ User.declared) (h : validateUser m = .ok c) :
    validateUser (m ++ [(k, v)]) = .ok { c with extra := c.extra ++ [(k, v)] } := by
  have hee : ∀ d ∈ User.declared, getKey (m ++ [(k, v)]) d = getKey m d :=
    fun d hd => getKey_append_ne fun hdk => hk (hdk ▸ hd)
  rw [validateUser] at h
  obtain ⟨a, ha, h2⟩ := map_ok h
  rw [validateUser, userCore_congr hee, ha, extrasOf_append_undeclared hk]
  subst h2
  rfl

theorem validateRole_append {m : RawObj} {c : Role} {k : String} {v : PVal}
    (hk : k ∉ Role.declared) (h : validateRole m = .ok c) :
    validateRole (m ++ [(k, v)]) = .ok { c with extra := c.extra ++ [(k, v)] } := by
  have hee : ∀ d ∈ Role.declared, getKey (m ++ [(k, v)]) d = getKey m d :=
    fun d hd => getKey_append_ne fun hdk => hk (hdk ▸ hd)
  rw [validateRole] at h
  obtain ⟨a, ha, h2⟩ := map_ok h
  rw [validateRole, roleCore_congr hee, ha, extrasOf_append_undeclared hk]
  subst h2
  rfl

theorem validateLogin_append {m : RawObj} {c : Login} {k : String} {v : PVal}
    (hk : k ∉ Login.declared) (h : validateLogin m = .ok c) :
    validateLogin (m ++ [(k, v)]) = .ok { c with extra := c.extra ++ [(k, v)] } := by
  have hee : ∀ d ∈ Login.declared, getKey (m ++ [(k, v)]) d = getKey m d :=
    fun d hd => getKey_append_ne fun hdk => hk (hdk ▸ hd)
  rw [validateLogin] at h
  obtain ⟨a, ha, h2⟩ := map_ok h
  rw [validateLogin, loginCore_congr hee, ha, extrasOf_append_undeclared hk]
  subst h2
  rfl

theorem validateInnerMember_append {m : RawObj} {c : InnerMember} {k : String} {v : PVal}
    (hk : k ∉ memberDeclared) (h : validateInnerMember m = .ok c) :
    validateInnerMember (m ++ [(k, v)]) = .ok { c with extra := c.extra ++ [(k, v)] } := by
  have hee : ∀ d ∈ memberDeclared, getKey (m ++ [(k, v)]) d = getKey m d :=
    fun d hd => getKey_append_ne fun hdk => hk (hdk ▸ hd)
  rw [validateInnerMember] at h
  obtain ⟨a, ha, h2⟩ := map_ok h
  rw [validateInnerMember, innerMemberCore_congr hee, ha, extrasOf_append_undeclared hk]
  subst h2
  rfl

theorem validateEvent_extra {parse : String → List Element} {m : RawObj} {e : Event}
    (h : (validateEvent parse m).1 = .ok e) : e.extra = extrasOf Event.declared m := by
  rw [validateEvent] at h
  cases hX : optMessageField parse (getKey m "message") with
  | mk msgR logs =>
    rw [hX] at h
    have h2 : (eventCore msgR m).map
        (fun c => { c with extra := extrasOf Event.declared m }) = .ok e := h
    obtain ⟨a, -, h3⟩ := map_ok h2
    rw [← h3]

theorem validateInnerMessage_append {parse : String → List Element} {m : RawObj}
    {c : InnerMessage} {k : String} {v : PVal}
    (hk : k ∉ InnerMessage.declared) (h : (validateInnerMessage parse m).1 = .ok c) :
    (validateInnerMessage parse (m ++ [(k, v)])).1 =
      .ok { c with extra := c.extra ++ [(k, v)] } := by
  have hkc : ("content" : String) ≠ k := by
    intro he
    exact hk (by simp [InnerMessage.declared, ← he])
  have hgc : getKey (m ++ [(k, v)]) "content" = getKey m "content" :=
    getKey_append_ne hkc
  have hee : ∀ d ∈ InnerMessage.declared, getKey (m ++ [(k, v)]) d = getKey m d :=
    fun d hd => getKey_append_ne fun hdk => hk (hdk ▸ hd)
  cases hc : getKey m "content" with
  | some v0 =>
    have hL : (validateInnerMessage parse m).1 =
        (messageCore parse m).map
          fun x => { x with extra := extrasOf InnerMessage.declared m } := by
      simp [validateInnerMessage, ensure_content, hc]
    have hR : (validateInnerMessage parse (m ++ [(k, v)])).1 =
        (messageCore parse (m ++ [(k, v)])).map
          fun x => { x with extra := extrasOf InnerMessage.declared (m ++ [(k, v)]) } := by
      simp [validateInnerMessage, ensure_content, hgc, hc]
    rw [hL] at h
    obtain ⟨a, ha, h2⟩ := map_ok h
    rw [hR, messageCore_congr hee, ha, extrasOf_append_undeclared hk]
    subst h2
    rfl
  | none =>
    have hcc : getKey (m ++ [(k, v)]) "content" = none := by rw [hgc, hc]
    have hL : (validateInnerMessage parse m).1 =
        (messageCore parse (m ++ [("content", PVal.str "Unknown")])).map
          fun x => { x with
            extra := extrasOf InnerMessage.declared
              (m ++ [("content", PVal.str "Unknown")]) } := by
      simp [validateInnerMessage, ensure_content, hc]
    have hR : (validateInnerMessage parse (m ++ [(k, v)])).1 =
        (messageCore parse ((m ++ [(k, v)]) ++ [("content", PVal.str "Unknown")])).map
          fun x => { x with
            extra := extrasOf InnerMessage.declared
              ((m ++ [(k, v)]) ++ [("content", PVal.str "Unknown")]) } := by
      simp only [validateInnerMessage, ensure_content, hcc, Option.isSome_none,
        Bool.false_eq_true, if_false]
    have hee2 : ∀ d ∈ InnerMessage.declared,
        getKey ((m ++ [(k, v)]) ++ [("content", PVal.str "Unknown")]) d =
          getKey (m ++ [("content", PVal.str "Unknown")]) d := by
      intro d hd
      by_cases hdc : d = "content"
      · subst hdc
        rw [getKey_append_left hcc, getKey_append_left hc]
      · have hdk : d ≠ k := fun hdk => hk (hdk ▸ hd)
        rw [getKey_append_ne hdc, getKey_append_ne hdk, getKey_append_ne hdc]
    rw [hL] at h
    obtain ⟨a, ha, h2⟩ := map_ok h
    rw [hR, messageCore_congr hee2, ha, extrasOf_append_sentinel,
      extrasOf_append_undeclared hk]
    subst h2
    simp only [Except.map, Except.ok.injEq]
    rw [extrasOf_append_sentinel]

theorem validateEvent_append {parse : String → List Element} {m : RawObj}
    {e : Event} {k : String} {v : PVal}
    (hk : k ∉ Event.declared) (h : (validateEvent parse m).1 = .ok e) :
    (validateEvent parse (m ++ [(k, v)])).1 =
      .ok { e with extra := e.extra ++ [(k, v)] } := by
  have hkm : ("message" : String) ≠ k := by
    intro he
    exact hk (by simp [Event.declared, ← he])
  have hgm : getKey (m ++ [(k, v)]) "message" = getKey m "message" :=
    getKey_append_ne hkm
  have hee : ∀ d ∈ Event.declared, getKey (m ++ [(k, v)]) d = getKey m d :=
    fun d hd => getKey_append_ne fun hdk => hk (hdk ▸ hd)
  cases hX : optMessageField parse (getKey m "message") with
  | mk msgR logs =>
    rw [validateEvent, hX] at h
    have h2 : (eventCore msgR m).map
        (fun x => { x with extra := extrasOf Event.declared m }) = .ok e := h
    obtain ⟨a, ha, h3⟩ := map_ok h2
    have hR : (validateEvent parse (m ++ [(k, v)])).1 =
        (eventCore msgR (m ++ [(k, v)])).map
          fun x => { x with extra := extrasOf Event.declared (m ++ [(k, v)]) } := by
      rw [validateEvent, hgm, hX]
    rw [hR, eventCore_congr hee, ha, extrasOf_append_undeclared hk]
    subst h3
    rfl

/-- C7: every open-schema entity (Channel, Guild, User, Role, Login,
Member, Message, Event) follows the open-schema policy: whenever decoding
succeeds, any binding of the raw map whose key is not a declared field is
retrievable verbatim from the decoded value's extras, and adding an
unrecognized binding to a successfully-decoding raw map never makes
decoding fail — it decodes to the same value with the new binding
retained. -/
theorem C7_open_schema_extras :
    (∀ (m : RawObj) (c : Channel) (k : String) (v : PVal), validateChannel m = .ok c →
      k ∉ Channel.declared → ((k, v) ∈ m → (k, v) ∈ c.extra) ∧
      validateChannel (m ++ [(k, v)]) = .ok { c with extra := c.extra ++ [(k, v)] }) ∧
    (∀ (m : RawObj) (c : Guild) (k : String) (v : PVal), validateGuild m = .ok c →
      k ∉ Guild.declared → ((k, v) ∈ m → (k, v) ∈ c.extra) ∧
      validateGuild (m ++ [(k, v)]) = .ok { c with extra := c.extra ++ [(k, v)] }) ∧
    (∀ (m : RawObj) (c : User) (k : String) (v : PVal), validateUser m = .ok c →
      k ∉ User.declared → ((k, v) ∈ m → (k, v) ∈ c.extra) ∧
      validateUser (m ++ [(k, v)]) = .ok { c with extra := c.extra ++ [(k, v)] }) ∧
    (∀ (m : RawObj) (c : Role) (k : String) (v : PVal), validateRole m = .ok c →
      k ∉ Role.declared → ((k, v) ∈ m → (k, v) ∈ c.extra) ∧
      validateRole (m ++ [(k, v)]) = .ok { c with extra := c.extra ++ [(k, v)] }) ∧
    (∀ (m : RawObj) (c : Login) (k : String) (v : PVal), validateLogin m = .ok c →
      k ∉ Login.declared → ((k, v) ∈ m → (k, v) ∈ c.extra) ∧
      validateLogin (m ++ [(k, v)]) = .ok { c with extra := c.extra ++ [(k, v)] }) ∧
    (∀ (m : RawObj) (c : InnerMember) (k : String) (v : PVal), validateInnerMember m = .ok c →
      k ∉ memberDeclared → ((k, v) ∈ m → (k, v) ∈ c.extra) ∧
      validateInnerMember (m ++ [(k, v)]) = .ok { c with extra := c.extra ++ [(k, v)] }) ∧
    (∀ (parse : String → List Element) (m : RawObj) (c : InnerMessage) (k : String) (v : PVal),
      (validateInnerMessage parse m).1 = .ok c →
      k ∉ InnerMessage.declared → ((k, v) ∈ m → (k, v) ∈ c.extra) ∧
      (validateInnerMessage parse (m ++ [(k, v)])).1 =
        .ok { c with extra := c.extra ++ [(k, v)] }) ∧
    (∀ (parse : String → List Element) (m : RawObj) (c : Event) (k : String) (v : PVal),
      (validateEvent parse m).1 = .ok c →
      k ∉ Event.declared → ((k, v) ∈ m → (k, v) ∈ c.extra) ∧
      (validateEvent parse (m ++ [(k, v)])).1 =
        .ok { c with extra := c.extra ++ [(k, v)] }) := by
  refine ⟨?_, ?_, ?_, ?_, ?_, ?_, ?_, ?_⟩
  · intro m c k v h hk
    exact ⟨fun hm => by rw [validateChannel_extra h]; exact mem_extrasOf hm hk,
      validateChannel_append hk h⟩
  · intro m c k v h hk
    exact ⟨fun hm => by rw [validateGuild_extra h]; exact mem_extrasOf hm hk,
      validateGuild_append hk h⟩
  · intro m c k v h hk
    exact ⟨fun hm => by rw [validateUser_extra h]; exact mem_extrasOf hm hk,
      validateUser_append hk h⟩
  · intro m c k v h hk
    exact ⟨fun hm => by rw [validateRole_extra h]; exact mem_extrasOf hm hk,
      validateRole_append hk h⟩
  · intro m c k v h hk
    exact ⟨fun hm => by rw [validateLogin_extra h]; exact mem_extrasOf hm hk,
      validateLogin_append hk h⟩
  · intro m c k v h hk
    exact ⟨fun hm => by rw [validateInnerMember_extra h]; exact mem_extrasOf hm hk,
      validateInnerMember_append hk h⟩
  · intro parse m c k v h hk
    exact ⟨fun hm => by rw [validateInnerMessage_extra h]; exact mem_extrasOf hm hk,
      validateInnerMessage_append hk h⟩
  · intro parse m c k v h hk
    exact ⟨fun hm => by rw [validateEvent_extra h]; exact mem_extrasOf hm hk,
      validateEvent_append hk h⟩

/-- Witness for C7: a Channel raw map with an extra `"custom_flag": true`
binding decodes with that binding retrievable from the decoded value, and
adding the binding to the plain map preserves successful decoding. -/
theorem C7_open_schema_extras_witness :
    ("custom_flag", PVal.bool true) ∈
      ({ id := "c", type := .TEXT,
         extra := [("custom_flag", PVal.bool true)] } : Channel).extra ∧
    validateChannel ([("id", .str "c"), ("type", .int 0)] ++
        [("custom_flag", PVal.bool true)]) =
      .ok { sampleChannel with
            extra := sampleChannel.extra ++ [("custom_flag", PVal.bool true)] } :=
  ⟨(C7_open_schema_extras.1
      [("id", .str "c"), ("type", .int 0), ("custom_flag", .bool true)]
      _ "custom_flag" (.bool true) rfl (by decide)).1
      (List.Mem.tail _ (List.Mem.tail _ (List.Mem.head _))),
   (C7_open_schema_extras.1 [("id", .str "c"), ("type", .int 0)]
      sampleChannel "custom_flag" (.bool true) rfl (by decide)).2⟩

/-- C1: decoding an envelope with `op = EVENT` (0) and an absent or null
body fails with `MissingBody(EVENT)`; with a body that validates as an
`Event` it returns the `EventPayload` wrapping exactly that validated
event (whose fields are the input fields after type coercion). -/
theorem C1_event_payload_decode (parse : String → List Element) (raw : RawObj)
    (hop : getKey raw "op" = some (.int 0)) :
    ((getKey raw "body" = none ∨ getKey raw "body" = some .null) →
      decodePayload parse raw = (.error (.missingBody .EVENT), [])) ∧
    (∀ (b : PVal) (ev : Event) (logs : List String), getKey raw "body" = some b →
      validateEventV parse b = (.ok ev, logs) →
      decodePayload parse raw = (.ok (.event ev), logs)) := by
  constructor
  · rintro (hb | hb) <;> simp [decodePayload, hop, decodeOp, Opcode.ofInt, hb]
  · intro b ev logs hb hv
    cases b
    case null =>
      have := congrArg Prod.fst hv
      simp [validateEventV] at this
    all_goals simp [decodePayload, hop, decodeOp, Opcode.ofInt, hb, hv, Except.map]

/-- Witness for C1: the sample envelope decodes to the sample event; the
same envelope without a body fails with `MissingBody(EVENT)`. -/
theorem C1_event_payload_decode_witness :
    decodePayload sampleParse [("op", .int 0), ("body", .obj sampleEventObj)] =
      (.ok (.event sampleEvent), []) ∧
    decodePayload sampleParse [("op", .int 0)] = (.error (.missingBody .EVENT), []) :=
  ⟨(C1_event_payload_decode sampleParse
      [("op", .int 0), ("body", .obj sampleEventObj)] rfl).2
      (.obj sampleEventObj) sampleEvent [] rfl rfl,
   (C1_event_payload_decode sampleParse [("op", .int 0)] rfl).1 (Or.inl rfl)⟩

/-- C8: the strict member tier refines the permissive one — every raw map
accepted as `OuterMember` is accepted as `InnerMember` with identical
shared fields — while the converse fails: the empty map is a valid
`InnerMember` but is rejected by `OuterMember`. -/
theorem C8_outer_member_refines_inner :
    (∀ (m : RawObj) (om : OuterMember), validateOuterMember m = .ok om →
      validateInnerMember m = .ok (innerOfOuter om)) ∧
    validateInnerMember [] = .ok {} ∧
    validateOuterMember [] = .error (.missingField "user") := by
  refine ⟨?_, rfl, rfl⟩
  intro m om hom
  rw [validateOuterMember] at hom
  obtain ⟨a, hcore, hom2⟩ := map_ok hom
  rw [outerMemberCore] at hcore
  obtain ⟨u, hu, hcore⟩ := bind_ok hcore
  obtain ⟨nm, hnm, hcore⟩ := bind_ok hcore
  obtain ⟨av, hav, hcore⟩ := bind_ok hcore
  obtain ⟨ja, hja, hcore⟩ := bind_ok hcore
  simp only [pure, Except.pure, Except.ok.injEq] at hcore
  obtain ⟨v, hgv, hvn, hfv⟩ := reqField_ok hu
  obtain ⟨w, hgw, hpw⟩ := reqTimestamp_ok hja
  subst hcore
  subst hom2
  simp [validateInnerMember, innerMemberCore, innerOfOuter, hgv,
    optField_of_notNull hvn, hfv, hnm, hav, hgw, optTimestamp, hpw,
    Bind.bind, Except.bind, pure, Except.pure, Except.map]

/-- Witness for C8: the sample full member map decodes in both tiers with
identical shared fields. -/
theorem C8_outer_member_refines_inner_witness :
    validateInnerMember sampleMemberObj = .ok (innerOfOuter sampleOuterMember) :=
  C8_outer_member_refines_inner.1 sampleMemberObj sampleOuterMember rfl

end Satori

